import Mathlib

/-!
# Verification of the `scheduler` repository

Shallow embedding of `src/libpriqueue/libpriqueue.c` and
`src/libscheduler/libscheduler.c`.

Modelling conventions:
* C `int` is modelled by `Int` (no overflow occurs in the quantities involved);
  core indices are `Nat` where they index the core table.
* The global scheduler state (`numCores`, `coreArr`, `schedule`, the wait
  `queue`, and the four statistics counters) is a `SchedState` record threaded
  explicitly; `coreArr` is a `List (Option Job)` whose length plays the role
  of `numCores` (`scheduler_start_up` builds it with `List.replicate cores
  none`, and every operation preserves the length).
* The statistics counters are C `float`s receiving integer-valued increments;
  they are modelled as exact integers.
* The wait queue is modelled as the list of stored elements in front-to-back
  order; `priqueue_offer` takes an `Option` element to model the possibly-NULL
  `void *ptr` argument (`NULL` is `none`).
* For `priqueue_peek` / `priqueue_poll` / `priqueue_at` the distinction between
  a queue node (`noodle_t *`) and the element pointer stored in it
  (`noodle->pasta`) matters, so those three functions are additionally modelled
  at node level: a `Noodle` carries the node address and the stored element
  pointer, both rendered as `Nat` addresses.  A node is `malloc`ed inside
  `priqueue_offer` while the payload is a distinct live allocation owned by the
  caller, so the two addresses always differ in any C execution.
* `Job.everInSlot` is ghost history (not a field of the C `job_t`): it is set
  exactly when the job is placed into a core slot and is read by no operation,
  so it does not influence any behaviour; it records "this job has occupied a
  core slot at some point since its arrival".
-/

/-- The `job_t` struct of `libscheduler.h`, plus the ghost field
`everInSlot` (see the file header). -/
structure Job where
  pid : Int
  priority : Int
  arrivalTime : Int
  jobLength : Int
  remainingTime : Int
  responseTime : Int
  lastCheckedTime : Int
  everInSlot : Bool
deriving DecidableEq

/-- The `scheme_t` enum of `libscheduler.h`. -/
inductive Scheme where
  | FCFS | SJF | PSJF | PRI | PPRI | RR
deriving DecidableEq

/-- `FCFScomp` of `libscheduler.c`: always `1`, so every insertion lands at
the back of the queue. -/
def FCFScomp (_a _b : Job) : Int := 1

/-- `SJFcomp` of `libscheduler.c`. -/
def SJFcomp (a b : Job) : Int := a.remainingTime - b.remainingTime

/-- `PRIcomp` of `libscheduler.c`. -/
def PRIcomp (a b : Job) : Int :=
  if a.priority - b.priority = 0 then a.arrivalTime - b.arrivalTime
  else a.priority - b.priority

/-- The comparator `scheduler_start_up` installs for each scheme. -/
def comp : Scheme → Job → Job → Int
  | Scheme.FCFS => FCFScomp
  | Scheme.RR => FCFScomp
  | Scheme.SJF => SJFcomp
  | Scheme.PSJF => SJFcomp
  | Scheme.PRI => PRIcomp
  | Scheme.PPRI => PRIcomp

/-! ## The priority queue (`libpriqueue.c`), element level

The queue is the front-to-back list of stored elements. -/

/-- The loop of `priqueue_offer` on a non-NULL element: walk from the front,
insert before the first stored element `x` with `comparer e x < 0`, else
append at the tail; the returned `Nat` is the zero-based insertion index
(the `count` variable of the C loop). -/
def offerList {α : Type} (cmp : α → α → Int) (e : α) : List α → List α × Nat
  | [] => ([e], 0)
  | x :: xs =>
    if cmp e x < 0 then (e :: x :: xs, 0)
    else
      let r := offerList cmp e xs
      (x :: r.1, r.2 + 1)

/-- `priqueue_offer` of `libpriqueue.c`.  A `NULL` element (`none`) is
rejected with `-1` before the queue is touched. -/
def priqueue_offer {α : Type} (cmp : α → α → Int) (q : List α) (ptr : Option α) :
    List α × Int :=
  match ptr with
  | none => (q, -1)
  | some e => ((offerList cmp e q).1, ((offerList cmp e q).2 : Int))

/-- `priqueue_poll` of `libpriqueue.c`: remove and return the front element
(`front->pasta`), or `none` when empty.  Returns the polled element together
with the remaining queue. -/
def priqueue_poll {α : Type} : List α → Option α × List α
  | [] => (none, [])
  | x :: xs => (some x, xs)

/-- `priqueue_size` of `libpriqueue.c`. -/
def priqueue_size {α : Type} (q : List α) : Int := (q.length : Int)

/-- Repeatedly `priqueue_poll` until the queue is empty, collecting the
polled elements in order.  `priqueue_poll (x :: xs)` is definitionally
`(some x, xs)`, so the recursion runs on the remaining queue `xs`. -/
def pollAll {α : Type} : List α → List α
  | [] => []
  | x :: xs =>
    match (priqueue_poll (x :: xs)).1 with
    | none => []
    | some a => a :: pollAll xs

/-! ## The priority queue, node level (for `priqueue_peek`)

`priqueue_peek` returns `q->front` itself — the `noodle_t *` node — while
`priqueue_poll` and `priqueue_at` return the stored element pointer
`front->pasta`.  To express that difference, a node is modelled with its own
address and the address of its payload. -/

/-- A `noodle_t` node: `addr` is the address of the node itself (the value of
a `noodle_t *` pointing at it), `pasta` is the element pointer stored in the
node.  The node is a fresh `malloc` allocation distinct from the payload
object, so `addr ≠ pasta` in any C execution. -/
structure Noodle where
  addr : Nat
  pasta : Nat
deriving DecidableEq

/-- `priqueue_peek` of `libpriqueue.c`, node level: `return q->front;` — the
returned pointer is the front *node*, not the stored element. -/
def priqueue_peek_node (q : List Noodle) : Option Nat :=
  match q with
  | [] => none
  | n :: _ => some n.addr

/-- `priqueue_poll` of `libpriqueue.c`, node level: returns `front->pasta`
and unlinks the front node. -/
def priqueue_poll_node (q : List Noodle) : Option Nat × List Noodle :=
  match q with
  | [] => (none, [])
  | n :: rest => (some n.pasta, rest)

/-- `priqueue_at` of `libpriqueue.c`, node level: the `index`'th node's
`pasta`, or `none` when out of range. -/
def priqueue_at_node (q : List Noodle) (index : Nat) : Option Nat :=
  (q.get? index).map Noodle.pasta

/-! ## The scheduler (`libscheduler.c`) -/

/-- The module-level state of `libscheduler.c`: the active scheme, the core
table `coreArr` (length = `numCores`), the wait `queue`, and the statistics
counters (`numJobs`, `waitingTime`, `turnaroundTime`, `responseTime`). -/
structure SchedState where
  schedule : Scheme
  coreArr : List (Option Job)
  queue : List Job
  numJobs : Int
  waitingTime : Int
  turnaroundTime : Int
  responseTime : Int
deriving DecidableEq

/-- `scheduler_start_up`: zero counters, all-idle core table, empty queue;
the comparator choice is recorded by storing the scheme (see `comp`). -/
def scheduler_start_up (cores : Nat) (scheme : Scheme) : SchedState :=
  { schedule := scheme
    coreArr := List.replicate cores none
    queue := []
    numJobs := 0
    waitingTime := 0
    turnaroundTime := 0
    responseTime := 0 }

/-- The idle-core scan of `scheduler_new_job` (lines 101–108): index of the
first `NULL` slot, or `none` when every slot is occupied (`idleCore == -1`). -/
def firstIdle : List (Option Job) → Option Nat
  | [] => none
  | none :: _ => some 0
  | some _ :: rest => (firstIdle rest).map (· + 1)

/-- Collects the jobs of a fully occupied core table; `none` when some slot
is idle.  In `scheduler_new_job` this is only consulted after the idle scan
found no empty slot, where it always succeeds. -/
def allSome {α : Type} : List (Option α) → Option (List α)
  | [] => some []
  | none :: _ => none
  | some a :: rest => (allSome rest).map (a :: ·)

/-- The job constructed at the top of `scheduler_new_job` (lines 92–99).
Note `responseTime` starts at `0`, and is overwritten with `-1` only when the
job is deferred to the wait queue (line 181). -/
def mkJob (job_number time running_time priority : Int) : Job :=
  { pid := job_number
    priority := priority
    arrivalTime := time
    jobLength := running_time
    remainingTime := running_time
    responseTime := 0
    lastCheckedTime := time
    everInSlot := false }

/-- Lines 136–140 / 168–171 of `scheduler_new_job`: if the preempted job's
`responseTime` equals `time - arrivalTime` (it was dispatched this very
tick), reset it to `-1`. -/
def preemptFix (time : Int) (j : Job) : Job :=
  if j.responseTime = time - j.arrivalTime then { j with responseTime := -1 }
  else j

/-- One step of the victim-selection loops of `scheduler_new_job`: `better
best cand = true` when the loop would move its index from `best` to the
candidate.  The candidate is only considered when its `arrivalTime ≠ time`
(the "scheduled this clock cycle" guard); the current best is *not*
re-checked.  The loop's `i = 0` iteration compares slot 0 with itself and
never moves the index, so scanning starts from the pair `(0, jobs[0])`. -/
def scanIdx (better : Job → Job → Bool) : List Job → Nat → Nat × Job → Nat × Job
  | [], _, best => best
  | j :: rest, i, best =>
    scanIdx better rest (i + 1) (if better best.2 j then (i, j) else best)

/-- Runs a victim-selection scan over the (non-empty) core table. -/
def runScan (better : Job → Job → Bool) : List Job → Option (Nat × Job)
  | [] => none
  | j0 :: rest => some (scanIdx better rest 1 (0, j0))

/-- The PPRI victim comparison (lines 122–133): among candidates with
`arrivalTime ≠ time`, move to a strictly lower-priority (larger value) job,
or, on equal priority values, to the job with the larger `arrivalTime`. -/
def ppriBetter (time : Int) (best cand : Job) : Bool :=
  cand.arrivalTime ≠ time &&
    (cand.priority > best.priority ||
      (cand.priority == best.priority && cand.arrivalTime > best.arrivalTime))

/-- The PSJF bookkeeping update applied to every running job (lines
153–156). -/
def psjfUpdate (time : Int) (j : Job) : Job :=
  { j with
    remainingTime := j.remainingTime - (time - j.lastCheckedTime)
    lastCheckedTime := time }

/-- The PSJF victim comparison (lines 158–164): among candidates with
`arrivalTime ≠ time`, move to a job with strictly larger `remainingTime`. -/
def psjfBetter (time : Int) (best cand : Job) : Bool :=
  cand.arrivalTime ≠ time && cand.remainingTime > best.remainingTime

/-- Lines 179–184 of `scheduler_new_job`: mark the job "never scheduled"
(`responseTime := -1`), offer it to the wait queue, return `-1`. -/
def deferJob (s : SchedState) (j : Job) : SchedState × Int :=
  ({ s with
      queue :=
        (priqueue_offer (comp s.schedule) s.queue
          (some { j with responseTime := -1 })).1 },
    -1)

/-- `scheduler_new_job` of `libscheduler.c`.

The C loop of the PSJF branch interleaves the bookkeeping update with the
victim comparison, but the running best index never exceeds the loop index,
so both compared entries are already updated; updating the whole table first
and then scanning is the same computation.  The two `unreachable` arms keep
the function total: when the idle scan fails every slot is occupied, so
`allSome` succeeds, and the core table is non-empty (`cores` is positive per
the start-up contract), so `runScan` succeeds. -/
def scheduler_new_job (s : SchedState) (job_number time running_time priority : Int) :
    SchedState × Int :=
  let newJob := mkJob job_number time running_time priority
  match firstIdle s.coreArr with
  | some i =>
    ({ s with coreArr := s.coreArr.set i (some { newJob with everInSlot := true }) },
      (i : Int))
  | none =>
    match allSome s.coreArr with
    | none => (s, -1)  -- unreachable: no idle slot means every slot is occupied
    | some running =>
      if s.schedule = Scheme.PPRI then
        match runScan (ppriBetter time) running with
        | none => deferJob s newJob  -- unreachable: the core table is non-empty
        | some (bi, bj) =>
          if bj.priority > newJob.priority then
            ({ s with
                queue :=
                  (priqueue_offer (comp s.schedule) s.queue
                    (some (preemptFix time bj))).1
                coreArr := s.coreArr.set bi (some { newJob with everInSlot := true }) },
              (bi : Int))
          else deferJob s newJob
      else if s.schedule = Scheme.PSJF then
        let updated := running.map (psjfUpdate time)
        let s1 := { s with coreArr := updated.map some }
        match runScan (psjfBetter time) updated with
        | none => deferJob s1 newJob  -- unreachable: the core table is non-empty
        | some (bi, bj) =>
          if bj.remainingTime > newJob.remainingTime then
            ({ s1 with
                queue :=
                  (priqueue_offer (comp s.schedule) s.queue
                    (some (preemptFix time bj))).1
                coreArr := (updated.map some).set bi (some { newJob with everInSlot := true }) },
              (bi : Int))
          else deferJob s1 newJob
      else deferJob s newJob

/-- Lines 216–222 (and 256–261): what happens to the queue head when it is
dispatched onto the freed core — set `responseTime` to `time - arrivalTime`
when it is still `-1`.  (`scheduler_job_finished` additionally sets
`lastCheckedTime` first; `scheduler_quantum_expired` does not.) -/
def respOnDispatch (time : Int) (j : Job) : Job :=
  if j.responseTime = -1 then { j with responseTime := time - j.arrivalTime }
  else j

/-- `scheduler_job_finished` of `libscheduler.c`.  The C code dereferences
`coreArr[core_id]` unconditionally; an empty or out-of-range slot is
undefined behaviour there and is modelled as a stuck `(s, -1)`. -/
def scheduler_job_finished (s : SchedState) (core_id : Nat) (_job_number time : Int) :
    SchedState × Int :=
  match (s.coreArr.get? core_id).getD none with
  | none => (s, -1)  -- undefined behaviour in C (NULL dereference)
  | some j =>
    let s1 : SchedState :=
      { s with
          waitingTime := s.waitingTime + (time - j.jobLength - j.arrivalTime)
          turnaroundTime := s.turnaroundTime + (time - j.arrivalTime)
          responseTime := s.responseTime + j.responseTime
          numJobs := s.numJobs + 1
          coreArr := s.coreArr.set core_id none }
    match s1.queue with
    | [] => (s1, -1)
    | h :: tl =>
      let h2 := respOnDispatch time { h with lastCheckedTime := time }
      ({ s1 with
          queue := tl
          coreArr := s1.coreArr.set core_id (some { h2 with everInSlot := true }) },
        h2.pid)

/-- `scheduler_quantum_expired` of `libscheduler.c`.  The slot content —
possibly `NULL` — is passed straight to `priqueue_offer`, which rejects
`NULL` without touching the queue; the subsequent poll therefore cannot find
an empty queue (the early-return guard handled that case), and the dead
`[]` arm only keeps the function total. -/
def scheduler_quantum_expired (s : SchedState) (core_id : Nat) (time : Int) :
    SchedState × Int :=
  let slot : Option Job := (s.coreArr.get? core_id).getD none
  if slot = none ∧ s.queue = [] then (s, -1)
  else
    match (priqueue_offer (comp s.schedule) s.queue slot).1 with
    | [] => (s, -1)  -- unreachable: the offered queue is non-empty here
    | h :: tl =>
      let h1 := respOnDispatch time h
      ({ s with
          queue := tl
          coreArr := s.coreArr.set core_id (some { h1 with everInSlot := true }) },
        h1.pid)

/-! ## Event traces -/

/-- One simulator event: the three mutating entry points of the scheduler. -/
inductive SchedEvent where
  | arrive (job_number time running_time priority : Int)
  | finish (core_id : Nat) (job_number time : Int)
  | quantum (core_id : Nat) (time : Int)
deriving DecidableEq

/-- The state transition of one event (return value discarded). -/
def stepEvent (s : SchedState) : SchedEvent → SchedState
  | SchedEvent.arrive jn t rt pr => (scheduler_new_job s jn t rt pr).1
  | SchedEvent.finish cid jn t => (scheduler_job_finished s cid jn t).1
  | SchedEvent.quantum cid t => (scheduler_quantum_expired s cid t).1

/-- The state after `scheduler_start_up cores scheme` followed by a list of
events. -/
def runTrace (cores : Nat) (scheme : Scheme) (es : List SchedEvent) : SchedState :=
  es.foldl stepEvent (scheduler_start_up cores scheme)

/-! ## Claim theorems -/

/-- Claim C1, evaluated at a failing input.  PPRI, one core: job 1 arrives at
time 5 and is dispatched to core 0, so core 0 holds a running job whose
`arrivalTime` equals 5.  A second call `scheduler_new_job(2, 5, 4, 1)` with
the same `time` argument then preempts that job anyway (the victim scan of
lines 119–134 starts from index 0 without checking the `arrivalTime != time`
guard): the call returns 0, core 0 now holds job 2, and job 1 was pushed to
the wait queue.  This contradicts the claim (and the code's own comment
"do not preempt jobs that have been scheduled this clock cycle"). -/
theorem c1_same_tick_job_preempted :
    ((scheduler_new_job (scheduler_start_up 1 Scheme.PPRI) 1 5 5 9).1.coreArr.map
        (fun o => o.map (fun j => (j.pid, j.arrivalTime))) = [some (1, 5)]) ∧
    (scheduler_new_job
        ((scheduler_new_job (scheduler_start_up 1 Scheme.PPRI) 1 5 5 9).1)
        2 5 4 1).2 = 0 ∧
    ((scheduler_new_job
        ((scheduler_new_job (scheduler_start_up 1 Scheme.PPRI) 1 5 5 9).1)
        2 5 4 1).1.coreArr.map (fun o => o.map Job.pid) = [some 2]) ∧
    ((scheduler_new_job
        ((scheduler_new_job (scheduler_start_up 1 Scheme.PPRI) 1 5 5 9).1)
        2 5 4 1).1.queue.map Job.pid = [1]) := by
  decide

/-- Claim C2, evaluated at a failing input.  PPRI, two cores: core 0 runs job
1 (priority 5, arrival 0), core 1 runs job 2 (priority 5, arrival 1); both
are preemption candidates at time 2 with equal (weakest) priority.  The new
job 3 (priority 1) preempts core 1 — the job with the *larger* `arrivalTime`
(line 129 moves the index when `arrivalTime` is greater) — while the claim,
the spec, and the code's own comment ("preempt the older one") require the
earliest-arrival candidate on core 0. -/
theorem c2_equal_priority_younger_preempted :
    ((scheduler_new_job
        ((scheduler_new_job (scheduler_start_up 2 Scheme.PPRI) 1 0 9 5).1)
        2 1 9 5).1.coreArr.map
        (fun o => o.map (fun j => (j.pid, j.priority, j.arrivalTime)))
      = [some (1, 5, 0), some (2, 5, 1)]) ∧
    (scheduler_new_job
        ((scheduler_new_job
          ((scheduler_new_job (scheduler_start_up 2 Scheme.PPRI) 1 0 9 5).1)
          2 1 9 5).1)
        3 2 4 1).2 = 1 ∧
    ((scheduler_new_job
        ((scheduler_new_job
          ((scheduler_new_job (scheduler_start_up 2 Scheme.PPRI) 1 0 9 5).1)
          2 1 9 5).1)
        3 2 4 1).1.coreArr.map (fun o => o.map Job.pid)
      = [some 1, some 3]) := by
  decide

/-- Claim C4, evaluated at a failing input.  PSJF, two cores.  After the
trace `arrive(1,t=0,len=4)`, `arrive(2,t=1,len=9)`, `finish(core 0, t=5)`,
`arrive(3,t=5,len=12)`, core 0 runs job 3 (arrival 5, remaining 12) and core
1 runs job 2 (arrival 1, remaining 9).  The call
`scheduler_new_job(4, 5, 3, 0)` updates remaining times (job 2 drops to 5);
the only candidate with `arrivalTime ≠ 5` is job 2 with remaining 5 > 3, so
the claim requires core 1 to be preempted.  The code instead preempts core 0
(returns 0), evicting job 3, which arrived this very tick — the victim scan
of lines 150–165 starts from index 0 without checking the eligibility
guard. -/
theorem c4_psjf_same_tick_victim :
    ((runTrace 2 Scheme.PSJF
        [SchedEvent.arrive 1 0 4 0, SchedEvent.arrive 2 1 9 0,
          SchedEvent.finish 0 1 5, SchedEvent.arrive 3 5 12 0]).coreArr.map
        (fun o => o.map (fun j => (j.pid, j.arrivalTime, j.remainingTime)))
      = [some (3, 5, 12), some (2, 1, 9)]) ∧
    (scheduler_new_job
        (runTrace 2 Scheme.PSJF
          [SchedEvent.arrive 1 0 4 0, SchedEvent.arrive 2 1 9 0,
            SchedEvent.finish 0 1 5, SchedEvent.arrive 3 5 12 0])
        4 5 3 0).2 = 0 ∧
    ((scheduler_new_job
        (runTrace 2 Scheme.PSJF
          [SchedEvent.arrive 1 0 4 0, SchedEvent.arrive 2 1 9 0,
            SchedEvent.finish 0 1 5, SchedEvent.arrive 3 5 12 0])
        4 5 3 0).1.coreArr.map
        (fun o => o.map (fun j => (j.pid, j.remainingTime)))
      = [some (4, 3), some (2, 5)]) ∧
    ((scheduler_new_job
        (runTrace 2 Scheme.PSJF
          [SchedEvent.arrive 1 0 4 0, SchedEvent.arrive 2 1 9 0,
            SchedEvent.finish 0 1 5, SchedEvent.arrive 3 5 12 0])
        4 5 3 0).1.queue.map Job.pid = [3]) := by
  decide

/-- Claim C6, evaluated at a failing input.  `priqueue_peek` executes
`return q->front;` — it returns the front *node* (`noodle_t *`), not the
stored element pointer `front->pasta` that `priqueue_poll` and
`priqueue_at(0)` return, contradicting its own doc comment ("pointer to
element at the head of the queue").  In the node-level model a queue holds
one node at address 1 whose stored element pointer is 2 (a node is a fresh
`malloc` allocation, always distinct from the separately allocated payload
it points to): peek yields the node address, poll and at-0 yield the
element. -/
theorem c6_peek_returns_node_not_element :
    priqueue_peek_node [{ addr := 1, pasta := 2 }] = some 1 ∧
    (priqueue_poll_node [{ addr := 1, pasta := 2 }]).1 = some 2 ∧
    priqueue_at_node [{ addr := 1, pasta := 2 }] 0 = some 2 ∧
    priqueue_peek_node [{ addr := 1, pasta := 2 }]
      ≠ (priqueue_poll_node [{ addr := 1, pasta := 2 }]).1 := by
  decide

/-- Claim C9, counterexample.  PPRI, one core: job 1 runs from its arrival at
time 0; job 2 (arrival 1, priority 7) waits; when job 1 finishes at time 5,
job 2 is dispatched (`responseTime := 4`); the higher-priority job 3 arrives
at the same time 5 and preempts job 2, and because job 2 had been dispatched
this very tick (`responseTime == time - arrivalTime`), lines 138–140 reset
its `responseTime` to `-1`.  The resulting wait queue holds job 2 with
`responseTime = -1` even though it did occupy core 0 — refuting the claimed
"iff". -/
theorem c9_reset_breaks_iff :
    ¬ (∀ j ∈ (runTrace 1 Scheme.PPRI
          [SchedEvent.arrive 1 0 5 3, SchedEvent.arrive 2 1 5 7,
            SchedEvent.finish 0 1 5, SchedEvent.arrive 3 5 5 1]).queue,
        (j.responseTime = -1 ↔ j.everInSlot = false)) := by
  decide
/-! ### Helper lemmas about `priqueue_offer` -/

/-- `priqueue_offer` inserts the element at the returned index: the resulting
queue splits as prefix / new element / suffix at that index. -/
theorem offerList_shape {α : Type} (cmp : α → α → Int) (e : α) (q : List α) :
    (offerList cmp e q).1
      = q.take (offerList cmp e q).2 ++ e :: q.drop (offerList cmp e q).2 := by
  induction q with
  | nil => rfl
  | cons x xs ih =>
    by_cases h : cmp e x < 0
    · simp [offerList, h]
    · simp only [offerList, if_neg h, List.take_succ_cons, List.drop_succ_cons,
        List.cons_append]
      exact congrArg (x :: ·) ih

/-- The insertion index never exceeds the length of the queue. -/
theorem offerList_idx_le {α : Type} (cmp : α → α → Int) (e : α) (q : List α) :
    (offerList cmp e q).2 ≤ q.length := by
  induction q with
  | nil => exact Nat.le_refl 0
  | cons x xs ih =>
    by_cases h : cmp e x < 0
    · simp [offerList, h]
    · simpa [offerList, h] using ih

/-- Every stored element strictly before the insertion index compares
non-less: the index is not too late. -/
theorem offerList_before {α : Type} (cmp : α → α → Int) (e : α) (q : List α) :
    ∀ i x, i < (offerList cmp e q).2 → q.get? i = some x → ¬ cmp e x < 0 := by
  induction q with
  | nil => intro i x hi; simp [offerList] at hi
  | cons y ys ih =>
    intro i x hi hx
    by_cases h : cmp e y < 0
    · simp [offerList, h] at hi
    · simp only [offerList, if_neg h] at hi
      cases i with
      | zero =>
        simp only [List.get?_cons_zero, Option.some.injEq] at hx
        exact hx ▸ h
      | succ i =>
        exact ih i x (Nat.lt_of_succ_lt_succ hi) (by simpa using hx)

/-- The stored element at the insertion index (when one exists) compares
less: the index is the first such position. -/
theorem offerList_at {α : Type} (cmp : α → α → Int) (e : α) (q : List α) :
    ∀ x, q.get? (offerList cmp e q).2 = some x → cmp e x < 0 := by
  induction q with
  | nil => intro x hx; simp [offerList] at hx
  | cons y ys ih =>
    intro x hx
    by_cases h : cmp e y < 0
    · simp only [offerList, if_pos h, List.get?_cons_zero, Option.some.injEq] at hx
      exact hx ▸ h
    · simp only [offerList, if_neg h, List.get?_cons_succ] at hx
      exact ih x hx

/-- Under an always-positive comparator `priqueue_offer` appends at the
tail. -/
theorem offerList_pos_append {α : Type} (cmp : α → α → Int)
    (hpos : ∀ a b, 0 < cmp a b) (e : α) (q : List α) :
    offerList cmp e q = (q ++ [e], q.length) := by
  induction q with
  | nil => rfl
  | cons x xs ih =>
    have h : ¬ cmp e x < 0 := by have := hpos e x; omega
    simp [offerList, h, ih]

/-- Draining the queue with `priqueue_poll` returns the stored elements from
front to back. -/
theorem pollAll_eq {α : Type} (q : List α) : pollAll q = q := by
  induction q with
  | nil => rfl
  | cons x xs ih => simp [pollAll, priqueue_poll, ih]

/-- Folding always-positive offers over a list builds the queue in insertion
order. -/
theorem foldl_offer_pos {α : Type} (cmp : α → α → Int)
    (hpos : ∀ a b, 0 < cmp a b) (xs : List α) :
    ∀ acc : List α, xs.foldl (fun q a => (offerList cmp a q).1) acc = acc ++ xs := by
  induction xs with
  | nil => intro acc; simp
  | cons x xs ih =>
    intro acc
    rw [List.foldl_cons]
    have hx : (offerList cmp x acc).1 = acc ++ [x] := by
      rw [offerList_pos_append cmp hpos]
    rw [hx, ih (acc ++ [x]), List.append_assoc, List.singleton_append]

/-- Claim C7: `priqueue_offer` inserts a non-NULL element `e` at the first
position `i` with `cmp e existing[i] < 0`, else at the tail, and returns the
zero-based insertion index; under an always-positive comparator, repeated
`priqueue_poll` returns the elements in insertion order (FIFO). -/
theorem c7_offer_insert_position_fifo {α : Type} (cmp : α → α → Int) (e : α)
    (q : List α) (cmpP : α → α → Int) (hpos : ∀ a b, 0 < cmpP a b)
    (xs : List α) :
    priqueue_offer cmp q (some e)
        = ((offerList cmp e q).1, ((offerList cmp e q).2 : Int)) ∧
    (offerList cmp e q).1
        = q.take (offerList cmp e q).2 ++ e :: q.drop (offerList cmp e q).2 ∧
    (offerList cmp e q).2 ≤ q.length ∧
    (∀ i x, i < (offerList cmp e q).2 → q.get? i = some x → ¬ cmp e x < 0) ∧
    (∀ x, q.get? (offerList cmp e q).2 = some x → cmp e x < 0) ∧
    pollAll (xs.foldl (fun acc a => (offerList cmpP a acc).1) []) = xs := by
  refine ⟨rfl, offerList_shape cmp e q, offerList_idx_le cmp e q,
    offerList_before cmp e q, offerList_at cmp e q, ?_⟩
  rw [foldl_offer_pos cmpP hpos xs [], List.nil_append, pollAll_eq]

/-- Witness for C7 at a concrete input: comparator `a - b` on `Int`-valued
elements, element 2 offered into the queue `[1, 3]` (inserted at index 1),
and the always-positive comparator draining `[5, 6, 7]` in insertion
order. -/
theorem c7_offer_insert_position_fifo_witness :
    (∀ a b : Int, 0 < (fun _ _ => (1 : Int)) a b) ∧
    (priqueue_offer (fun a b : Int => a - b) [1, 3] (some 2)
        = ((offerList (fun a b : Int => a - b) 2 [1, 3]).1,
            ((offerList (fun a b : Int => a - b) 2 [1, 3]).2 : Int)) ∧
      (offerList (fun a b : Int => a - b) 2 [1, 3]).1
        = List.take (offerList (fun a b : Int => a - b) 2 [1, 3]).2 [1, 3]
            ++ 2 :: List.drop (offerList (fun a b : Int => a - b) 2 [1, 3]).2 [1, 3] ∧
      (offerList (fun a b : Int => a - b) 2 [1, 3]).2 ≤ 2 ∧
      (∀ i x, i < (offerList (fun a b : Int => a - b) 2 [1, 3]).2 →
        List.get? [1, 3] i = some x → ¬ (fun a b : Int => a - b) 2 x < 0) ∧
      (∀ x, List.get? [1, 3] (offerList (fun a b : Int => a - b) 2 [1, 3]).2 = some x →
        (fun a b : Int => a - b) 2 x < 0) ∧
      pollAll (List.foldl (fun acc a => (offerList (fun _ _ => (1 : Int)) a acc).1)
          ([] : List Int) [5, 6, 7]) = [5, 6, 7]) := by
  constructor
  · intro a b; exact Int.zero_lt_one
  · exact c7_offer_insert_position_fifo (fun a b : Int => a - b) 2 [1, 3]
      (fun _ _ => (1 : Int)) (fun a b => Int.zero_lt_one) ([5, 6, 7] : List Int)

/-- The idle scan finds the lowest-indexed empty slot: whenever some slot is
empty, `firstIdle` returns an index `k` holding `none` such that every
smaller index holds a job. -/
theorem firstIdle_spec (l : List (Option Job)) (hidle : none ∈ l) :
    ∃ k, firstIdle l = some k ∧ l.get? k = some none ∧
      ∀ m, m < k → l.get? m ≠ some none := by
  induction l with
  | nil => cases hidle
  | cons x rest ih =>
    cases x with
    | none =>
      exact ⟨0, rfl, rfl, fun m hm => absurd hm (Nat.not_lt_zero m)⟩
    | some j =>
      have hrest : none ∈ rest := by
        rcases List.mem_cons.mp hidle with h | h
        · cases h
        · exact h
      obtain ⟨k, hk, hget, hlt⟩ := ih hrest
      refine ⟨k + 1, ?_, ?_, ?_⟩
      · simp [firstIdle, hk]
      · simpa using hget
      · intro m hm
        cases m with
        | zero => simp
        | succ m => simpa using hlt m (Nat.lt_of_succ_lt_succ hm)

/-- Claim C3: when at least one core slot is empty, `scheduler_new_job`
places the arriving job (with `responseTime = 0`) into the lowest-indexed
empty slot and returns that index; everything else — the wait queue, the
other slots, the statistics — is untouched and no running job is
preempted. -/
theorem c3_idle_core_rule (s : SchedState) (jn t rt pr : Int)
    (hidle : none ∈ s.coreArr) :
    ∃ k : Nat,
      s.coreArr.get? k = some none ∧
      (∀ m, m < k → s.coreArr.get? m ≠ some none) ∧
      scheduler_new_job s jn t rt pr =
        ({ s with
            coreArr := s.coreArr.set k (some
              { pid := jn, priority := pr, arrivalTime := t, jobLength := rt,
                remainingTime := rt, responseTime := 0, lastCheckedTime := t,
                everInSlot := true }) },
          (k : Int)) := by
  obtain ⟨k, hk, hget, hlt⟩ := firstIdle_spec s.coreArr hidle
  exact ⟨k, hget, hlt, by simp [scheduler_new_job, hk, mkJob]⟩

/-- Witness for C3 at a concrete input: a fresh two-core FCFS scheduler has
an empty slot, and the first arrival is placed on core 0. -/
theorem c3_idle_core_rule_witness :
    (none ∈ (scheduler_start_up 2 Scheme.FCFS).coreArr) ∧
    (∃ k : Nat,
      (scheduler_start_up 2 Scheme.FCFS).coreArr.get? k = some none ∧
      (∀ m, m < k → (scheduler_start_up 2 Scheme.FCFS).coreArr.get? m ≠ some none) ∧
      scheduler_new_job (scheduler_start_up 2 Scheme.FCFS) 1 0 5 0 =
        ({ scheduler_start_up 2 Scheme.FCFS with
            coreArr := (scheduler_start_up 2 Scheme.FCFS).coreArr.set k (some
              { pid := 1, priority := 0, arrivalTime := 0, jobLength := 5,
                remainingTime := 5, responseTime := 0, lastCheckedTime := 0,
                everInSlot := true }) },
          (k : Int))) := by
  exact ⟨by decide, c3_idle_core_rule (scheduler_start_up 2 Scheme.FCFS) 1 0 5 0 (by decide)⟩

/-- `respOnDispatch` never changes the job id. -/
theorem respOnDispatch_pid (t : Int) (j : Job) : (respOnDispatch t j).pid = j.pid := by
  unfold respOnDispatch; split <;> rfl

/-- Claim C5: `scheduler_job_finished` on an occupied slot adds
`time − arrival_time − job_length` to the waiting-time sum,
`time − arrival_time` to the turnaround sum, the finished job's
`response_time` to the response-time sum, and one to the completed-job
count; the finished job leaves its slot, and then the head of the wait queue
(when any) is dispatched into that slot with `lastCheckedTime = time` and —
if its `responseTime` was `-1` — `responseTime = time − arrivalTime`, its id
being returned; with an empty wait queue the slot stays empty and `-1` is
returned. -/
theorem c5_job_finished_accounting (s : SchedState) (cid : Nat) (jn t : Int)
    (j : Job) (hslot : s.coreArr.get? cid = some (some j)) :
    (scheduler_job_finished s cid jn t).1.waitingTime
        = s.waitingTime + (t - j.arrivalTime - j.jobLength) ∧
    (scheduler_job_finished s cid jn t).1.turnaroundTime
        = s.turnaroundTime + (t - j.arrivalTime) ∧
    (scheduler_job_finished s cid jn t).1.responseTime
        = s.responseTime + j.responseTime ∧
    (scheduler_job_finished s cid jn t).1.numJobs = s.numJobs + 1 ∧
    (s.queue = [] →
      (scheduler_job_finished s cid jn t).1.coreArr = s.coreArr.set cid none ∧
      (scheduler_job_finished s cid jn t).1.queue = [] ∧
      (scheduler_job_finished s cid jn t).2 = -1) ∧
    (∀ h tl, s.queue = h :: tl →
      (scheduler_job_finished s cid jn t).1.queue = tl ∧
      (scheduler_job_finished s cid jn t).1.coreArr
        = s.coreArr.set cid (some
            { respOnDispatch t { h with lastCheckedTime := t } with
                everInSlot := true }) ∧
      (scheduler_job_finished s cid jn t).2 = h.pid) := by
  rw [List.get?_eq_getElem?] at hslot
  refine ⟨?_, ?_, ?_, ?_, ?_, ?_⟩
  · cases hq : s.queue <;> simp [scheduler_job_finished, hslot, hq] <;> ring
  · cases hq : s.queue <;> simp [scheduler_job_finished, hslot, hq]
  · cases hq : s.queue <;> simp [scheduler_job_finished, hslot, hq]
  · cases hq : s.queue <;> simp [scheduler_job_finished, hslot, hq]
  · intro hq; simp [scheduler_job_finished, hslot, hq]
  · intro h tl hq
    refine ⟨?_, ?_, ?_⟩
    · simp [scheduler_job_finished, hslot, hq]
    · simp [scheduler_job_finished, hslot, hq, List.set_set]
    · simp [scheduler_job_finished, hslot, hq, respOnDispatch_pid]

/-- Witness for C5 at a concrete input: FCFS, one core; job 1 (arrival 0,
length 3) is running, job 2 (arrival 1) waits; `scheduler_job_finished(0, 1,
3)` accounts job 1 and dispatches job 2, returning its id 2. -/
theorem c5_job_finished_accounting_witness :
    ((runTrace 1 Scheme.FCFS
        [SchedEvent.arrive 1 0 3 0, SchedEvent.arrive 2 1 4 0]).coreArr.get? 0
      = some (some
          { pid := 1, priority := 0, arrivalTime := 0, jobLength := 3,
            remainingTime := 3, responseTime := 0, lastCheckedTime := 0,
            everInSlot := true })) ∧
    (scheduler_job_finished
        (runTrace 1 Scheme.FCFS
          [SchedEvent.arrive 1 0 3 0, SchedEvent.arrive 2 1 4 0]) 0 1 3).2 = 2 := by
  refine ⟨by decide, ?_⟩
  have h := (c5_job_finished_accounting
      (runTrace 1 Scheme.FCFS [SchedEvent.arrive 1 0 3 0, SchedEvent.arrive 2 1 4 0])
      0 1 3
      { pid := 1, priority := 0, arrivalTime := 0, jobLength := 3,
        remainingTime := 3, responseTime := 0, lastCheckedTime := 0,
        everInSlot := true }
      (by decide)).2.2.2.2.2
      { pid := 2, priority := 0, arrivalTime := 1, jobLength := 4,
        remainingTime := 4, responseTime := -1, lastCheckedTime := 1,
        everInSlot := false }
      [] (by decide)
  exact h.2.2

/-- Offering a non-NULL element grows the queue by one, so the result is
never empty. -/
theorem offerList_ne_nil {α : Type} (cmp : α → α → Int) (e : α) (q : List α) :
    (offerList cmp e q).1 ≠ [] := by
  cases q with
  | nil => simp [offerList]
  | cons x xs =>
    by_cases h : cmp e x < 0 <;> simp [offerList, h]

/-- Claim C8: case analysis of `scheduler_quantum_expired`.  With an empty
slot and empty wait queue it changes nothing and returns `-1`.  With an
occupied slot, the running job is offered into the wait queue and the head
of the resulting queue is dispatched into the slot (its `responseTime` set
to `time − arrivalTime` when it was `-1`) and its id returned.  With an
empty slot and non-empty queue, the head of the untouched queue is
dispatched the same way — the `NULL` offer added nothing. -/
theorem c8_quantum_expired_cases (s : SchedState) (cid : Nat) (t : Int) :
    (s.coreArr.get? cid = some none → s.queue = [] →
      scheduler_quantum_expired s cid t = (s, -1)) ∧
    (∀ j, s.coreArr.get? cid = some (some j) →
      ∃ h tl, (priqueue_offer (comp s.schedule) s.queue (some j)).1 = h :: tl ∧
        (scheduler_quantum_expired s cid t).1.queue = tl ∧
        (scheduler_quantum_expired s cid t).1.coreArr
          = s.coreArr.set cid (some { respOnDispatch t h with everInSlot := true }) ∧
        (scheduler_quantum_expired s cid t).2 = h.pid) ∧
    (∀ h tl, s.coreArr.get? cid = some none → s.queue = h :: tl →
      (scheduler_quantum_expired s cid t).1.queue = tl ∧
      (scheduler_quantum_expired s cid t).1.coreArr
        = s.coreArr.set cid (some { respOnDispatch t h with everInSlot := true }) ∧
      (scheduler_quantum_expired s cid t).2 = h.pid) := by
  refine ⟨?_, ?_, ?_⟩
  · intro hslot hq
    rw [List.get?_eq_getElem?] at hslot
    simp [scheduler_quantum_expired, hslot, hq]
  · intro j hslot
    rw [List.get?_eq_getElem?] at hslot
    obtain ⟨h, tl, heq⟩ :=
      List.exists_cons_of_ne_nil (offerList_ne_nil (comp s.schedule) j s.queue)
    refine ⟨h, tl, heq, ?_⟩
    have hoff : (priqueue_offer (comp s.schedule) s.queue (some j)).1 = h :: tl := heq
    refine ⟨?_, ?_, ?_⟩ <;>
      simp [scheduler_quantum_expired, hslot, priqueue_offer, heq, respOnDispatch_pid]
  · intro h tl hslot hq
    rw [List.get?_eq_getElem?] at hslot
    refine ⟨?_, ?_, ?_⟩ <;>
      simp [scheduler_quantum_expired, hslot, hq, priqueue_offer, respOnDispatch_pid]

/-- Witness for C8 at a concrete input: RR, one core; job 1 runs, job 2
waits; the quantum expires at time 2 — job 1 rotates to the tail and job 2
(response time still `-1`) is dispatched, its id returned. -/
theorem c8_quantum_expired_cases_witness :
    ((runTrace 1 Scheme.RR
        [SchedEvent.arrive 1 0 5 0, SchedEvent.arrive 2 1 3 0]).coreArr.get? 0
      = some (some
          { pid := 1, priority := 0, arrivalTime := 0, jobLength := 5,
            remainingTime := 5, responseTime := 0, lastCheckedTime := 0,
            everInSlot := true })) ∧
    (∃ h tl,
      (priqueue_offer
        (comp (runTrace 1 Scheme.RR
          [SchedEvent.arrive 1 0 5 0, SchedEvent.arrive 2 1 3 0]).schedule)
        (runTrace 1 Scheme.RR
          [SchedEvent.arrive 1 0 5 0, SchedEvent.arrive 2 1 3 0]).queue
        (some
          { pid := 1, priority := 0, arrivalTime := 0, jobLength := 5,
            remainingTime := 5, responseTime := 0, lastCheckedTime := 0,
            everInSlot := true })).1 = h :: tl ∧
      (scheduler_quantum_expired
        (runTrace 1 Scheme.RR
          [SchedEvent.arrive 1 0 5 0, SchedEvent.arrive 2 1 3 0]) 0 2).1.queue = tl ∧
      (scheduler_quantum_expired
        (runTrace 1 Scheme.RR
          [SchedEvent.arrive 1 0 5 0, SchedEvent.arrive 2 1 3 0]) 0 2).1.coreArr
        = (runTrace 1 Scheme.RR
            [SchedEvent.arrive 1 0 5 0, SchedEvent.arrive 2 1 3 0]).coreArr.set 0
            (some { respOnDispatch 2 h with everInSlot := true }) ∧
      (scheduler_quantum_expired
        (runTrace 1 Scheme.RR
          [SchedEvent.arrive 1 0 5 0, SchedEvent.arrive 2 1 3 0]) 0 2).2 = h.pid) := by
  refine ⟨by decide, ?_⟩
  exact (c8_quantum_expired_cases
      (runTrace 1 Scheme.RR [SchedEvent.arrive 1 0 5 0, SchedEvent.arrive 2 1 3 0])
      0 2).2.1
      { pid := 1, priority := 0, arrivalTime := 0, jobLength := 5,
        remainingTime := 5, responseTime := 0, lastCheckedTime := 0,
        everInSlot := true }
      (by decide)

/-- Claim C10: offering `NULL` returns `-1` and leaves any queue unchanged
(same size, same elements in the same order); consequently
`scheduler_quantum_expired` on an empty slot with a non-empty wait queue
dispatches the head of the *unchanged* queue — exactly one element leaves
and none is added. -/
theorem c10_offer_null_noop {α : Type} (cmp : α → α → Int) (q : List α)
    (s : SchedState) (cid : Nat) (t : Int) (h : Job) (tl : List Job)
    (hslot : s.coreArr.get? cid = some none) (hq : s.queue = h :: tl) :
    priqueue_offer cmp q none = (q, -1) ∧
    (priqueue_offer (comp s.schedule) s.queue none).1 = s.queue ∧
    (scheduler_quantum_expired s cid t).1.queue = tl ∧
    (scheduler_quantum_expired s cid t).1.coreArr
      = s.coreArr.set cid (some { respOnDispatch t h with everInSlot := true }) ∧
    (scheduler_quantum_expired s cid t).2 = h.pid := by
  rw [List.get?_eq_getElem?] at hslot
  refine ⟨rfl, rfl, ?_, ?_, ?_⟩ <;>
    simp [scheduler_quantum_expired, hslot, hq, priqueue_offer, respOnDispatch_pid]

/-- The waiting job of the C10 witness state. -/
def c10wJob : Job :=
  { pid := 2, priority := 0, arrivalTime := 1, jobLength := 3,
    remainingTime := 3, responseTime := -1, lastCheckedTime := 1,
    everInSlot := false }

/-- The C10 witness state: a one-core RR scheduler whose slot is empty while
`c10wJob` waits in the queue. -/
def c10wState : SchedState :=
  { schedule := Scheme.RR, coreArr := [none], queue := [c10wJob],
    numJobs := 0, waitingTime := 0, turnaroundTime := 0, responseTime := 0 }

/-- Witness for C10 at a concrete input: on `c10wState` the quantum expiry
at time 2 dispatches job 2 from the untouched queue (offering the `NULL`
slot content added nothing), and a `NULL` offer into an arbitrary concrete
one-element queue returns `-1` and leaves it unchanged. -/
theorem c10_offer_null_noop_witness :
    (c10wState.coreArr.get? 0 = some none ∧ c10wState.queue = [c10wJob]) ∧
    (priqueue_offer FCFScomp [c10wJob] none = ([c10wJob], -1) ∧
      (scheduler_quantum_expired c10wState 0 2).1.queue = [] ∧
      (scheduler_quantum_expired c10wState 0 2).2 = 2) := by
  refine ⟨⟨by decide, rfl⟩, ?_⟩
  have h := c10_offer_null_noop FCFScomp [c10wJob] c10wState 0 2 c10wJob []
    (by decide) rfl
  exact ⟨h.1, h.2.2.1, h.2.2.2.2⟩

/-! ### The C9 invariant: queue jobs that never ran carry the `-1` sentinel -/

/-- Elements of an offered queue are the new element or old elements. -/
theorem mem_offerList {α : Type} (cmp : α → α → Int) (e : α) (q : List α)
    (x : α) (hx : x ∈ (offerList cmp e q).1) : x = e ∨ x ∈ q := by
  induction q with
  | nil =>
    simp [offerList] at hx
    exact Or.inl hx
  | cons y ys ih =>
    by_cases h : cmp e y < 0
    · simp only [offerList, if_pos h] at hx
      rcases List.mem_cons.mp hx with rfl | hx
      · exact Or.inl rfl
      · exact Or.inr hx
    · simp only [offerList, if_neg h] at hx
      rcases List.mem_cons.mp hx with rfl | hx
      · exact Or.inr (List.mem_cons_self _ _)
      · rcases ih hx with rfl | hx
        · exact Or.inl rfl
        · exact Or.inr (List.mem_cons_of_mem _ hx)

/-- `allSome` only returns jobs present in the core table. -/
theorem mem_allSome {α : Type} :
    ∀ (l : List (Option α)) (js : List α), allSome l = some js →
      ∀ x ∈ js, some x ∈ l := by
  intro l
  induction l with
  | nil =>
    intro js h x hx
    simp only [allSome, Option.some.injEq] at h
    subst h
    cases hx
  | cons o rest ih =>
    intro js h x hx
    cases o with
    | none => simp [allSome] at h
    | some a =>
      simp only [allSome, Option.map_eq_some'] at h
      obtain ⟨ys, hys, rfl⟩ := h
      rcases List.mem_cons.mp hx with rfl | hx
      · exact List.mem_cons_self _ _
      · exact List.mem_cons_of_mem _ (ih ys hys x hx)

/-- The job selected by a victim scan is the seed or one of the scanned
jobs. -/
theorem scanIdx_snd_mem (better : Job → Job → Bool) :
    ∀ (l : List Job) (i : Nat) (b : Nat × Job),
      (scanIdx better l i b).2 = b.2 ∨ (scanIdx better l i b).2 ∈ l := by
  intro l
  induction l with
  | nil => intro i b; exact Or.inl rfl
  | cons j rest ih =>
    intro i b
    simp only [scanIdx]
    by_cases h : better b.2 j
    · simp only [if_pos h]
      rcases ih (i + 1) (i, j) with h2 | h2
      · exact Or.inr (List.mem_cons.mpr (Or.inl h2))
      · exact Or.inr (List.mem_cons_of_mem _ h2)
    · simp only [if_neg h]
      rcases ih (i + 1) b with h2 | h2
      · exact Or.inl h2
      · exact Or.inr (List.mem_cons_of_mem _ h2)

/-- The victim returned by `runScan` is one of the scanned jobs. -/
theorem runScan_snd_mem (better : Job → Job → Bool) (l : List Job)
    (bi : Nat) (bj : Job) (h : runScan better l = some (bi, bj)) : bj ∈ l := by
  cases l with
  | nil => simp [runScan] at h
  | cons j0 rest =>
    simp only [runScan, Option.some.injEq] at h
    have h2 := scanIdx_snd_mem better rest 1 (0, j0)
    rw [h] at h2
    rcases h2 with h2 | h2
    · have h3 : bj = j0 := h2
      exact h3 ▸ List.mem_cons_self _ _
    · exact List.mem_cons_of_mem _ h2

/-- `preemptFix` does not touch the ghost flag. -/
theorem preemptFix_everInSlot (t : Int) (j : Job) :
    (preemptFix t j).everInSlot = j.everInSlot := by
  unfold preemptFix; split <;> rfl

/-- `psjfUpdate` does not touch the ghost flag. -/
theorem psjfUpdate_everInSlot (t : Int) (j : Job) :
    (psjfUpdate t j).everInSlot = j.everInSlot := rfl

/-- The C9 invariant: every waiting job that has never occupied a core slot
still carries the `-1` response-time sentinel, and every job in a core slot
has occupied one (its ghost flag is set). -/
def InvC9 (s : SchedState) : Prop :=
  (∀ j ∈ s.queue, j.everInSlot = false → j.responseTime = -1) ∧
  (∀ oj ∈ s.coreArr, ∀ j, oj = some j → j.everInSlot = true)

/-- The invariant holds initially. -/
theorem invC9_start (cores : Nat) (scheme : Scheme) :
    InvC9 (scheduler_start_up cores scheme) := by
  constructor
  · intro j hj
    simp [scheduler_start_up] at hj
  · intro oj hoj j hj
    rw [List.eq_of_mem_replicate hoj] at hj
    cases hj

/-- Deferring a job to the wait queue preserves the invariant: the deferred
job enters with `responseTime = -1`. -/
theorem invC9_defer (s : SchedState) (j : Job) (hs : InvC9 s) :
    InvC9 (deferJob s j).1 := by
  obtain ⟨hq, hc⟩ := hs
  constructor
  · intro x hx hxf
    rcases mem_offerList _ _ _ _ hx with rfl | hx
    · rfl
    · exact hq x hx hxf
  · exact hc

/-- Preemption preserves the invariant: the evicted job already carries the
ghost flag (it was running), so pushing it to the queue is harmless, and the
slot receives a job with the flag set. -/
theorem invC9_preempt (s : SchedState) (bj newJ : Job) (bi : Nat) (t : Int)
    (q0 : List (Option Job)) (hs : InvC9 s) (hbj : bj.everInSlot = true)
    (hnew : newJ.everInSlot = true) (hq0 : ∀ oj ∈ q0, ∀ j, oj = some j → j.everInSlot = true) :
    InvC9 { s with
      queue := (priqueue_offer (comp s.schedule) s.queue (some (preemptFix t bj))).1
      coreArr := q0.set bi (some newJ) } := by
  obtain ⟨hq, hc⟩ := hs
  constructor
  · intro x hx hxf
    rcases mem_offerList _ _ _ _ hx with rfl | hx
    · rw [preemptFix_everInSlot] at hxf
      rw [hxf] at hbj
      cases hbj
    · exact hq x hx hxf
  · intro oj hoj j hj
    rcases List.mem_or_eq_of_mem_set hoj with hmem | rfl
    · exact hq0 oj hmem j hj
    · cases hj
      exact hnew

/-- `scheduler_new_job` preserves the C9 invariant: a deferred arrival
enters the queue with the sentinel, a placed arrival gets its ghost flag
set, and an evicted victim was running (flag already set). -/
theorem invC9_arrive (s : SchedState) (jn t rt pr : Int) (hs : InvC9 s) :
    InvC9 (scheduler_new_job s jn t rt pr).1 := by
  obtain ⟨hq, hc⟩ := hs
  simp only [scheduler_new_job, mkJob]
  cases hidle : firstIdle s.coreArr with
  | some i =>
    simp only [hidle]
    refine ⟨hq, ?_⟩
    intro oj hoj j hj
    rcases List.mem_or_eq_of_mem_set hoj with hmem | rfl
    · exact hc oj hmem j hj
    · cases hj; rfl
  | none =>
    simp only [hidle]
    cases hall : allSome s.coreArr with
    | none => simp only [hall]; exact ⟨hq, hc⟩
    | some running =>
      simp only [hall]
      have hrunflag : ∀ bj ∈ running, bj.everInSlot = true := by
        intro bj hbj
        exact hc (some bj) (mem_allSome _ _ hall bj hbj) bj rfl
      have hupdflag : ∀ oj ∈ (running.map (psjfUpdate t)).map some,
          ∀ j, oj = some j → j.everInSlot = true := by
        intro oj hoj j hj
        obtain ⟨u, hu, rfl⟩ := List.mem_map.mp hoj
        cases hj
        obtain ⟨w, hw, rfl⟩ := List.mem_map.mp hu
        rw [psjfUpdate_everInSlot]
        exact hrunflag w hw
      by_cases hsch : s.schedule = Scheme.PPRI
      · simp only [if_pos hsch]
        cases hscan : runScan (ppriBetter t) running with
        | none => simp only [hscan]; exact invC9_defer s _ ⟨hq, hc⟩
        | some p =>
          obtain ⟨bi, bj⟩ := p
          simp only [hscan]
          have hbj : bj.everInSlot = true :=
            hrunflag bj (runScan_snd_mem _ _ _ _ hscan)
          by_cases hpri : bj.priority > pr
          · simp only [if_pos hpri]
            exact invC9_preempt s bj _ bi t s.coreArr ⟨hq, hc⟩ hbj rfl hc
          · simp only [if_neg hpri]
            exact invC9_defer s _ ⟨hq, hc⟩
      · simp only [if_neg hsch]
        by_cases hsch2 : s.schedule = Scheme.PSJF
        · simp only [if_pos hsch2]
          cases hscan : runScan (psjfBetter t) (running.map (psjfUpdate t)) with
          | none =>
            simp only [hscan]
            exact invC9_defer _ _ ⟨hq, hupdflag⟩
          | some p =>
            obtain ⟨bi, bj⟩ := p
            simp only [hscan]
            have hbj : bj.everInSlot = true := by
              have hmem := runScan_snd_mem _ _ _ _ hscan
              obtain ⟨w, hw, rfl⟩ := List.mem_map.mp hmem
              rw [psjfUpdate_everInSlot]
              exact hrunflag w hw
            by_cases hrem : bj.remainingTime > rt
            · simp only [if_pos hrem]
              exact invC9_preempt
                { s with coreArr := (running.map (psjfUpdate t)).map some }
                bj _ bi t ((running.map (psjfUpdate t)).map some)
                ⟨hq, hupdflag⟩ hbj rfl hupdflag
            · simp only [if_neg hrem]
              exact invC9_defer _ _ ⟨hq, hupdflag⟩
        · simp only [if_neg hsch2]
          exact invC9_defer s _ ⟨hq, hc⟩

/-- `scheduler_job_finished` preserves the C9 invariant: the dispatched head
(if any) gets its ghost flag set, the queue only shrinks. -/
theorem invC9_finish (s : SchedState) (cid : Nat) (jn t : Int) (hs : InvC9 s) :
    InvC9 (scheduler_job_finished s cid jn t).1 := by
  obtain ⟨hq, hc⟩ := hs
  simp only [scheduler_job_finished]
  cases hslot : (s.coreArr.get? cid).getD none with
  | none => exact ⟨hq, hc⟩
  | some j =>
    simp only [hslot]
    cases hqq : s.queue with
    | nil =>
      simp only [hqq]
      refine ⟨?_, ?_⟩
      · intro x hx; cases hx
      · intro oj hoj j2 hj2
        rcases List.mem_or_eq_of_mem_set hoj with hmem | rfl
        · exact hc oj hmem j2 hj2
        · cases hj2
    | cons h tl =>
      simp only [hqq]
      refine ⟨?_, ?_⟩
      · intro x hx hxf
        exact hq x (hqq ▸ List.mem_cons_of_mem _ hx) hxf
      · intro oj hoj j2 hj2
        rcases List.mem_or_eq_of_mem_set hoj with hmem | rfl
        · rcases List.mem_or_eq_of_mem_set hmem with hmem2 | rfl
          · exact hc oj hmem2 j2 hj2
          · cases hj2
        · cases hj2; rfl

/-- `scheduler_quantum_expired` preserves the C9 invariant: the rotated-out
job was running (flag set), and the dispatched head gets its flag set. -/
theorem invC9_quantum (s : SchedState) (cid : Nat) (t : Int) (hs : InvC9 s) :
    InvC9 (scheduler_quantum_expired s cid t).1 := by
  obtain ⟨hq, hc⟩ := hs
  simp only [scheduler_quantum_expired]
  by_cases hguard : (s.coreArr.get? cid).getD none = none ∧ s.queue = []
  · simp only [if_pos hguard]
    exact ⟨hq, hc⟩
  · simp only [if_neg hguard]
    have hoffmem : ∀ x ∈ (priqueue_offer (comp s.schedule) s.queue
        ((s.coreArr.get? cid).getD none)).1, x ∈ s.queue ∨ x.everInSlot = true := by
      intro x hx
      cases hslot : (s.coreArr.get? cid).getD none with
      | none =>
        rw [hslot] at hx
        exact Or.inl hx
      | some j =>
        rw [hslot] at hx
        rcases mem_offerList _ _ _ _ hx with rfl | hx
        · refine Or.inr ?_
          have hjmem : some x ∈ s.coreArr := by
            cases hget : s.coreArr.get? cid with
            | none => rw [hget] at hslot; cases hslot
            | some o =>
              rw [hget] at hslot
              simp only [Option.getD_some] at hslot
              rw [hslot] at hget
              exact List.get?_mem hget
          exact hc (some x) hjmem x rfl
        · exact Or.inl hx
    cases hq1 : (priqueue_offer (comp s.schedule) s.queue
        ((s.coreArr.get? cid).getD none)).1 with
    | nil => simp only [hq1]; exact ⟨hq, hc⟩
    | cons h tl =>
      simp only [hq1]
      refine ⟨?_, ?_⟩
      · intro x hx hxf
        have hx2 : x ∈ (priqueue_offer (comp s.schedule) s.queue
            ((s.coreArr.get? cid).getD none)).1 := by
          rw [hq1]; exact List.mem_cons_of_mem _ hx
        rcases hoffmem x hx2 with hmem | hflag
        · exact hq x hmem hxf
        · rw [hxf] at hflag; cases hflag
      · intro oj hoj j2 hj2
        rcases List.mem_or_eq_of_mem_set hoj with hmem | rfl
        · exact hc oj hmem j2 hj2
        · cases hj2; rfl

/-- Every event preserves the C9 invariant. -/
theorem invC9_step (s : SchedState) (e : SchedEvent) (hs : InvC9 s) :
    InvC9 (stepEvent s e) := by
  cases e with
  | arrive jn t rt pr => exact invC9_arrive s jn t rt pr hs
  | finish cid jn t => exact invC9_finish s cid jn t hs
  | quantum cid t => exact invC9_quantum s cid t hs

/-- The C9 invariant holds in every reachable state. -/
theorem invC9_run (cores : Nat) (scheme : Scheme) (es : List SchedEvent) :
    InvC9 (runTrace cores scheme es) := by
  suffices h : ∀ s : SchedState, InvC9 s → InvC9 (es.foldl stepEvent s) from
    h _ (invC9_start cores scheme)
  induction es with
  | nil => exact fun s h => h
  | cons e rest ih => exact fun s h => ih _ (invC9_step s e h)

/-- Claim C9, as amended: in every state reachable by a trace of scheduler
events, a live job (in the wait queue or in a core slot) that has never
occupied a core slot since its arrival has `responseTime = -1`.  (The
converse of the original claim fails: a job preempted in the very tick of
its dispatch also carries `-1` — see the counterexample — so only this
direction of the "iff" holds.) -/
theorem c9_never_ran_has_sentinel (cores : Nat) (scheme : Scheme)
    (es : List SchedEvent) (j : Job)
    (hlive : j ∈ (runTrace cores scheme es).queue ∨
      ∃ i, (runTrace cores scheme es).coreArr.get? i = some (some j))
    (hnever : j.everInSlot = false) :
    j.responseTime = -1 := by
  obtain ⟨hq, hc⟩ := invC9_run cores scheme es
  rcases hlive with hj | ⟨i, hi⟩
  · exact hq j hj hnever
  · have hmem : some j ∈ (runTrace cores scheme es).coreArr := List.get?_mem hi
    have := hc (some j) hmem j rfl
    rw [hnever] at this
    cases this

/-- Witness for C9's amended theorem at a concrete input: FCFS, one core;
job 1 occupies the core, job 2 (arrival 1) was deferred to the wait queue,
has never run, and indeed carries `responseTime = -1`. -/
theorem c9_never_ran_has_sentinel_witness :
    ((({ pid := 2, priority := 0, arrivalTime := 1, jobLength := 3,
          remainingTime := 3, responseTime := -1, lastCheckedTime := 1,
          everInSlot := false } : Job)
        ∈ (runTrace 1 Scheme.FCFS
            [SchedEvent.arrive 1 0 5 0, SchedEvent.arrive 2 1 3 0]).queue ∨
      ∃ i, (runTrace 1 Scheme.FCFS
          [SchedEvent.arrive 1 0 5 0, SchedEvent.arrive 2 1 3 0]).coreArr.get? i
        = some (some
            { pid := 2, priority := 0, arrivalTime := 1, jobLength := 3,
              remainingTime := 3, responseTime := -1, lastCheckedTime := 1,
              everInSlot := false })) ∧
    ({ pid := 2, priority := 0, arrivalTime := 1, jobLength := 3,
        remainingTime := 3, responseTime := -1, lastCheckedTime := 1,
        everInSlot := false } : Job).everInSlot = false) ∧
    ({ pid := 2, priority := 0, arrivalTime := 1, jobLength := 3,
        remainingTime := 3, responseTime := -1, lastCheckedTime := 1,
        everInSlot := false } : Job).responseTime = -1 := by
  refine ⟨⟨Or.inl (by decide), rfl⟩, ?_⟩
  exact c9_never_ran_has_sentinel 1 Scheme.FCFS
    [SchedEvent.arrive 1 0 5 0, SchedEvent.arrive 2 1 3 0]
    { pid := 2, priority := 0, arrivalTime := 1, jobLength := 3,
      remainingTime := 3, responseTime := -1, lastCheckedTime := 1,
      everInSlot := false }
    (Or.inl (by decide)) rfl
